import Mathlib

/-!
Verification development for the Sparsifier notebook collection.

The repository consists of notebooks that exercise a mask-based sparsity
toolkit: per-layer sparsity configuration groups, a sparsifier that attaches
all-ones masks on `prepare`, updates them on `step`, and multiplies them into
the weights on `squash_mask`, plus two custom callbacks implemented in the
notebooks themselves (`ClosestToMeanSparsifier.update_mask`,
`stepping_lambda`, and `OnOffSchedulerSL.get_sl`).

We embed the model shallowly: weight tensors and masks are flat lists of
rationals, a model is a list of layers, and the framework-level operations
(`prepare`, `stepWith`, `squash_mask`) are explicit state transformers on
that data.  Operations implemented in the notebooks are translated directly
from their Python source; operations supplied by the external framework are
modelled from the specification and the recorded notebook outputs, which is
noted at each such definition.
-/

attribute [local semireducible] Rat.mul Rat.inv Rat.add Rat.sub

/-- `pyRound q` is Python 3's built-in `round` on an exact rational:
round half to even (banker's rounding). -/
def pyRound (q : ℚ) : ℤ :=
  if q - (⌊q⌋ : ℚ) < 1/2 then ⌊q⌋
  else if 1/2 < q - (⌊q⌋ : ℚ) then ⌊q⌋ + 1
  else if ⌊q⌋ % 2 = 0 then ⌊q⌋ else ⌊q⌋ + 1

/-- Number of zero entries of a flat tensor, `(t == 0).sum()`. -/
def zeroCount (l : List ℚ) : ℕ :=
  l.countP (fun x => decide (x = 0))

/-- Fraction of zero entries of a flat tensor, `(t == 0).float().mean()`. -/
def zeroFraction (l : List ℚ) : ℚ :=
  (zeroCount l : ℚ) / (l.length : ℚ)

/-- `weight_flat.mean()` of a flat tensor. -/
def tensorMean (w : List ℚ) : ℚ :=
  w.sum / (w.length : ℚ)

/-- Index comparison used to rank tensor entries: position `i` comes before
position `j` when `d[i] ≤ d[j]`. -/
def leIdx (d : List ℚ) (i j : ℕ) : Prop :=
  d.getD i 0 ≤ d.getD j 0

instance (d : List ℚ) : DecidableRel (leIdx d) :=
  fun i j => inferInstanceAs (Decidable (_ ≤ _))

instance (d : List ℚ) : IsTotal ℕ (leIdx d) :=
  ⟨fun i j => le_total _ _⟩

instance (d : List ℚ) : IsTrans ℕ (leIdx d) :=
  ⟨fun _ _ _ h h' => le_trans h h'⟩

/-- `torch.sort(d)`'s index output: the positions of `d` listed in order of
increasing value (a stable sort on positions). -/
def argsort (d : List ℚ) : List ℕ :=
  List.insertionSort (leIdx d) (List.range d.length)

/-- `new_mask = torch.ones_like(...); new_mask[idxs] = 0` on a flat tensor of
length `n`. -/
def setZeros (n : ℕ) (idxs : List ℕ) : List ℚ :=
  (List.range n).map (fun i => if i ∈ idxs then 0 else 1)

/-- `ClosestToMeanSparsifier.update_mask` from the "Customizing the Sparsity
Workflow" notebook, on flat tensors: rank the entries of `weight` by absolute
distance to the mean, and zero the `int(round(sparsity_level * n))` closest
positions in a fresh all-ones mask of the old mask's shape. -/
def ClosestToMeanSparsifier.update_mask
    (weight mask : List ℚ) (sparsity_level : ℚ) : List ℚ :=
  let weight_flat := weight
  let weight_mean := tensorMean weight_flat
  let weight_distance_to_mean := weight_flat.map (fun x => |x - weight_mean|)
  let sorted_idx := argsort weight_distance_to_mean
  let threshold_idx := (pyRound (sparsity_level * (sorted_idx.length : ℚ))).toNat
  let sorted_idx := sorted_idx.take threshold_idx
  setZeros mask.length sorted_idx

/-- A linear layer: the original (unmasked) weight, the optional sparsity
parametrization (`none` means the layer has no `parametrizations` attribute,
`some m` means a `FakeSparsity` wrapper holding mask `m`), the bias, and the
dimensions. -/
structure Layer where
  weight : List ℚ
  mask : Option (List ℚ)
  bias : List ℚ
  in_features : ℕ
  out_features : ℕ
deriving DecidableEq

instance : Inhabited Layer := ⟨⟨[], none, [], 0, 0⟩⟩

/-- The weight the layer exposes as `layer.weight`: the original weight with
the mask applied multiplicatively when a parametrization is attached. -/
def Layer.effWeight (l : Layer) : List ℚ :=
  match l.mask with
  | none => l.weight
  | some m => List.zipWith (· * ·) m l.weight

/-- The default configuration group handed to the sparsifier constructor. -/
structure SparseDefaults where
  sparsity_level : ℚ
  sparse_block_shape : ℕ × ℕ
  zeros_per_block : ℕ
deriving DecidableEq

/-- One entry of the `sparse_config` list passed to `prepare`: either a dict
with explicit parameters for a module, or a bare module reference that takes
the sparsifier defaults.  Modules are referred to by their index in the
(flattened) model. -/
inductive ConfigEntry where
  | custom : ℕ → ℚ → ℕ × ℕ → ℕ → ConfigEntry
  | bare : ℕ → ConfigEntry
deriving DecidableEq

/-- The model index a config entry refers to. -/
def ConfigEntry.fqn : ConfigEntry → ℕ
  | .custom i _ _ _ => i
  | .bare i => i

/-- One of `sparsifier.module_groups`: a targeted layer together with the
sparsity parameters that apply to it. -/
structure ModuleGroup where
  fqn : ℕ
  sparsity_level : ℚ
  sparse_block_shape : ℕ × ℕ
  zeros_per_block : ℕ
deriving DecidableEq

/-- Modelled from the spec: `BaseSparsifier.prepare`'s translation of the
config into `module_groups` is supplied by the external framework.  Per the
spec's data model and the recorded notebook outputs, an explicit config
produces one group per listed entry — a dict entry keeps its own parameters,
a bare module reference takes the defaults — while `config = None` gives
every layer of the model a default group. -/
def makeGroups (d : SparseDefaults) (n : ℕ) :
    Option (List ConfigEntry) → List ModuleGroup
  | none =>
      (List.range n).map
        (fun i => ⟨i, d.sparsity_level, d.sparse_block_shape, d.zeros_per_block⟩)
  | some cfg =>
      cfg.map (fun e =>
        match e with
        | .custom i s b z => ⟨i, s, b, z⟩
        | .bare i => ⟨i, d.sparsity_level, d.sparse_block_shape, d.zeros_per_block⟩)

/-- Modelled from the spec: the mask-attachment half of
`BaseSparsifier.prepare` is supplied by the external framework.  Every layer
targeted by a module group receives a weight parametrization holding an
all-ones mask of the weight's shape; all other fields and all other layers
are left untouched. -/
def attachMasks (groups : List ModuleGroup) (model : List Layer) : List Layer :=
  (List.range model.length).map (fun i =>
    let l := model.getD i default
    if groups.any (fun g => g.fqn == i) then
      { l with mask := some (List.replicate l.weight.length 1) }
    else l)

/-- Modelled from the spec: `sparsifier.prepare(model, config)` — build the
module groups from the config and attach an all-ones mask parametrization to
every targeted layer, mutating the model (returned here as the new model
state together with the sparsifier's `module_groups`). -/
def prepare (d : SparseDefaults) (model : List Layer)
    (config : Option (List ConfigEntry)) : List Layer × List ModuleGroup :=
  let groups := makeGroups d model.length config
  (attachMasks groups model, groups)

/-- Modelled from the spec: `sparsifier.step()` calls the sparsifier's
`update_mask` on each layer that has a module group, passing that group's
sparsity level; layers without a group are untouched.  The per-layer update
rule `upd weight mask sparsity_level` is the pluggable policy function. -/
def stepWith (upd : List ℚ → List ℚ → ℚ → List ℚ)
    (model : List Layer) (groups : List ModuleGroup) : List Layer :=
  (List.range model.length).map (fun i =>
    let l := model.getD i default
    match groups.find? (fun g => g.fqn == i) with
    | none => l
    | some g =>
        match l.mask with
        | none => l
        | some m => { l with mask := some (upd l.weight m g.sparsity_level) })

/-- Modelled from the spec: `sparsifier.squash_mask()` multiplies each
attached mask into its layer's weight tensor and deletes the mask, removing
the parametrization wrapper; everything else is unchanged. -/
def squash_mask (model : List Layer) : List Layer :=
  model.map (fun l =>
    match l.mask with
    | none => l
    | some m => { l with weight := List.zipWith (· * ·) m l.weight, mask := none })

/-- `stepping_lambda` from the "Sparsifying while Training" notebook: the
scaling factor applied to the target sparsity level at a given epoch. -/
def stepping_lambda (epoch : ℕ) : ℚ :=
  let steps : List ℚ := [0, 1/2, 3/4, 1]
  if steps.length ≤ epoch then 1
  else steps.getD epoch 0

/-- State of `OnOffSchedulerSL` from the "Customizing the Sparsity Workflow"
notebook: the three switch points, the per-group base target sparsity levels,
and the last epoch the scheduler was called. -/
structure OnOffSchedulerSL where
  epoch_points : List ℤ
  base_sl : List ℚ
  last_epoch : ℤ
deriving DecidableEq

/-- `OnOffSchedulerSL.get_sl`, translated with Python's lazy condition
evaluation made explicit: each branch only reads the `epoch_points` entries
its condition mentions, and a missing entry (an `IndexError`) yields
`none`. -/
def OnOffSchedulerSL.get_sl (sch : OnOffSchedulerSL) : Option (List ℚ) := do
  let e0 ← sch.epoch_points.get? 0
  if sch.last_epoch < e0 then
    return List.replicate sch.base_sl.length 0
  else
    let e1 ← sch.epoch_points.get? 1
    if e0 ≤ sch.last_epoch ∧ sch.last_epoch < e1 then
      return sch.base_sl
    else
      let e2 ← sch.epoch_points.get? 2
      if e1 ≤ sch.last_epoch ∧ sch.last_epoch < e2 then
        return List.replicate sch.base_sl.length 0
      else
        return sch.base_sl

/-! ### Basic lemmas about the building blocks -/

theorem pyRound_intCast (k : ℤ) : pyRound (k : ℚ) = k := by
  unfold pyRound
  simp [Int.floor_intCast]

theorem pyRound_nonneg {q : ℚ} (h : 0 ≤ q) : 0 ≤ pyRound q := by
  have hf : (0 : ℤ) ≤ ⌊q⌋ := Int.floor_nonneg.mpr h
  unfold pyRound
  split_ifs <;> omega

theorem pyRound_le_of_le {q : ℚ} {n : ℕ} (h : q ≤ n) : pyRound q ≤ n := by
  have hf : ⌊q⌋ ≤ (n : ℤ) := by
    have := Int.floor_le_floor (α := ℚ) h
    simpa using this
  have hstrict : ¬ q - (⌊q⌋ : ℚ) < 1/2 → ⌊q⌋ < (n : ℤ) := by
    intro h1
    rcases lt_or_eq_of_le hf with h' | h'
    · exact h'
    · exfalso
      have hle : q - (⌊q⌋ : ℚ) ≤ 0 := by
        rw [h']
        push_cast
        linarith
      linarith [le_of_not_lt h1]
  unfold pyRound
  split_ifs with h1 h2 h3
  · exact hf
  · have := hstrict h1
    omega
  · exact hf
  · have := hstrict h1
    omega

theorem zeroCount_eq_zero_of_no_zero {l : List ℚ} (h : ∀ x ∈ l, x ≠ 0) :
    zeroCount l = 0 := by
  unfold zeroCount
  rw [List.countP_eq_zero]
  intro x hx
  simpa using h x hx

theorem argsort_perm (d : List ℚ) :
    List.Perm (argsort d) (List.range d.length) :=
  List.perm_insertionSort _ _

theorem argsort_length (d : List ℚ) : (argsort d).length = d.length := by
  simpa using (argsort_perm d).length_eq

theorem argsort_nodup (d : List ℚ) : (argsort d).Nodup :=
  ((argsort_perm d).nodup_iff).mpr (List.nodup_range _)

theorem argsort_mem {d : List ℚ} {i : ℕ} : i ∈ argsort d ↔ i < d.length := by
  rw [(argsort_perm d).mem_iff, List.mem_range]

theorem argsort_sorted (d : List ℚ) : List.Sorted (leIdx d) (argsort d) :=
  List.sorted_insertionSort _ _

theorem setZeros_length (n : ℕ) (idxs : List ℕ) : (setZeros n idxs).length = n := by
  simp [setZeros]

theorem setZeros_getD {n i : ℕ} (idxs : List ℕ) (hi : i < n) (dflt : ℚ) :
    (setZeros n idxs).getD i dflt = if i ∈ idxs then 0 else 1 := by
  unfold setZeros
  rw [List.getD_eq_getElem _ _ (by simpa using hi)]
  simp

theorem setZeros_mem {n : ℕ} {idxs : List ℕ} {x : ℚ} (hx : x ∈ setZeros n idxs) :
    x = 0 ∨ x = 1 := by
  unfold setZeros at hx
  obtain ⟨i, _, rfl⟩ := List.mem_map.mp hx
  split <;> simp

theorem zeroCount_setZeros {n : ℕ} {idxs : List ℕ} (hnd : idxs.Nodup)
    (hlt : ∀ i ∈ idxs, i < n) : zeroCount (setZeros n idxs) = idxs.length := by
  unfold zeroCount setZeros
  rw [List.countP_map]
  calc (List.range n).countP
        ((fun x => decide (x = 0)) ∘ (fun i => if i ∈ idxs then (0 : ℚ) else 1))
      = (List.range n).countP (fun i => decide (i ∈ idxs)) := by
        apply List.countP_congr
        intro i _
        by_cases h : i ∈ idxs <;> simp [h]
    _ = ((List.range n).filter (fun i => decide (i ∈ idxs))).length := by
        rw [List.countP_eq_length_filter]
    _ = idxs.length := by
        apply List.Perm.length_eq
        rw [List.perm_ext_iff_of_nodup ((List.nodup_range n).filter _) hnd]
        intro a
        simp only [List.mem_filter, List.mem_range, decide_eq_true_eq]
        exact ⟨fun h => h.2, fun h => ⟨hlt a h, h⟩⟩

theorem zipWith_one_mul (w : List ℚ) :
    List.zipWith (· * ·) (List.replicate w.length 1) w = w := by
  induction w with
  | nil => rfl
  | cons a l ih => simp [List.replicate_succ, ih]

theorem range_map_getD {α : Type} [Inhabited α] (f : ℕ → α) {n i : ℕ}
    (h : i < n) (dflt : α) : ((List.range n).map f).getD i dflt = f i := by
  rw [List.getD_eq_getElem _ _ (by simpa using h)]
  simp

/-! ### Lemmas about `ClosestToMeanSparsifier.update_mask` -/

/-- The positions zeroed by one `update_mask` call: the first
`int(round(sparsity_level * n))` entries of the distance ranking. -/
def zeroedIdx (weight : List ℚ) (sparsity_level : ℚ) : List ℕ :=
  (argsort (weight.map (fun x => |x - tensorMean weight|))).take
    (pyRound (sparsity_level * (weight.length : ℚ))).toNat

theorem update_mask_eq_setZeros (weight mask : List ℚ) (sparsity_level : ℚ) :
    ClosestToMeanSparsifier.update_mask weight mask sparsity_level
      = setZeros mask.length (zeroedIdx weight sparsity_level) := by
  simp only [ClosestToMeanSparsifier.update_mask, zeroedIdx, argsort_length,
    List.length_map]

theorem zeroedIdx_nodup (w : List ℚ) (s : ℚ) : (zeroedIdx w s).Nodup :=
  (argsort_nodup _).sublist (List.take_sublist _ _)

theorem zeroedIdx_lt {w : List ℚ} {s : ℚ} {i : ℕ} (h : i ∈ zeroedIdx w s) :
    i < w.length := by
  have := argsort_mem.mp (List.take_subset _ _ h)
  simpa using this

theorem zeroedIdx_length {w : List ℚ} {s : ℚ} (h0 : 0 ≤ s) (h1 : s ≤ 1) :
    (zeroedIdx w s).length = (pyRound (s * (w.length : ℚ))).toNat := by
  unfold zeroedIdx
  rw [List.length_take, argsort_length, List.length_map]
  have hle : s * (w.length : ℚ) ≤ (w.length : ℚ) := by
    nlinarith [Nat.cast_nonneg (α := ℚ) w.length]
  have := pyRound_le_of_le hle
  omega

theorem update_mask_length (w m : List ℚ) (s : ℚ) :
    (ClosestToMeanSparsifier.update_mask w m s).length = m.length := by
  rw [update_mask_eq_setZeros, setZeros_length]

theorem update_mask_zeroCount {w m : List ℚ} {s : ℚ} (h0 : 0 ≤ s) (h1 : s ≤ 1)
    (hm : m.length = w.length) :
    zeroCount (ClosestToMeanSparsifier.update_mask w m s)
      = (pyRound (s * (w.length : ℚ))).toNat := by
  rw [update_mask_eq_setZeros,
    zeroCount_setZeros (zeroedIdx_nodup w s) (fun i hi => hm ▸ zeroedIdx_lt hi),
    zeroedIdx_length h0 h1]

theorem update_mask_getD {w m : List ℚ} {s : ℚ} {i : ℕ} (hi : i < m.length)
    (dflt : ℚ) :
    (ClosestToMeanSparsifier.update_mask w m s).getD i dflt
      = if i ∈ zeroedIdx w s then 0 else 1 := by
  rw [update_mask_eq_setZeros, setZeros_getD _ hi]

/-- Positions zeroed by `update_mask` are at least as close to the mean as
positions left at one. -/
theorem zeroedIdx_min_dist {w : List ℚ} {s : ℚ} {i j : ℕ}
    (hi : i ∈ zeroedIdx w s) (hj : j < w.length) (hj' : j ∉ zeroedIdx w s) :
    |w.getD i 0 - tensorMean w| ≤ |w.getD j 0 - tensorMean w| := by
  set d := w.map (fun x => |x - tensorMean w|) with hd
  set k := (pyRound (s * (w.length : ℚ))).toNat with hk
  have hdl : d.length = w.length := by simp [hd]
  have hjmem : j ∈ (argsort d).drop k := by
    have hall : j ∈ argsort d := argsort_mem.mpr (hdl ▸ hj)
    have hsplit : argsort d = (argsort d).take k ++ (argsort d).drop k :=
      (List.take_append_drop _ _).symm
    rcases List.mem_append.mp (hsplit ▸ hall) with h | h
    · exact absurd h (by simpa [zeroedIdx, ← hd, ← hk] using hj')
    · exact h
  have himem : i ∈ (argsort d).take k := by
    simpa [zeroedIdx, ← hd, ← hk] using hi
  have hle : leIdx d i j :=
    (argsort_sorted d).rel_of_mem_take_of_mem_drop himem hjmem
  have hiw : i < w.length := zeroedIdx_lt hi
  have hgi : d.getD i 0 = |w.getD i 0 - tensorMean w| := by
    rw [hd, List.getD_eq_getElem _ _ (by simpa using hiw),
      List.getD_eq_getElem _ _ hiw]
    simp
  have hgj : d.getD j 0 = |w.getD j 0 - tensorMean w| := by
    rw [hd, List.getD_eq_getElem _ _ (by simpa using hj),
      List.getD_eq_getElem _ _ hj]
    simp
  unfold leIdx at hle
  rw [hgi, hgj] at hle
  exact hle

theorem update_mask_mem {w m : List ℚ} {s : ℚ} {x : ℚ}
    (hx : x ∈ ClosestToMeanSparsifier.update_mask w m s) : x = 0 ∨ x = 1 := by
  rw [update_mask_eq_setZeros] at hx
  exact setZeros_mem hx

/-- `update_mask` only reads the old mask through its length, so repeating it
returns the same mask. -/
theorem update_mask_idem (w m : List ℚ) (s : ℚ) :
    ClosestToMeanSparsifier.update_mask w
        (ClosestToMeanSparsifier.update_mask w m s) s
      = ClosestToMeanSparsifier.update_mask w m s := by
  rw [update_mask_eq_setZeros w m, update_mask_eq_setZeros, setZeros_length]

/-! ### Lemmas about the sparsifier pipeline -/

theorem zeroCount_zipWith_mul {m w : List ℚ} (hm : m.length = w.length)
    (hw : ∀ x ∈ w, x ≠ 0) :
    zeroCount (List.zipWith (· * ·) m w) = zeroCount m := by
  induction m generalizing w with
  | nil => simp [zeroCount]
  | cons a l ih =>
    cases w with
    | nil => simp at hm
    | cons b w' =>
      have hb : b ≠ 0 := hw b (by simp)
      have hrec := ih (w := w') (by simpa using hm)
        (fun x hx => hw x (by simp [hx]))
      simp only [List.zipWith_cons_cons, zeroCount, List.countP_cons] at hrec ⊢
      have : (decide (a * b = 0)) = decide (a = 0) := by
        by_cases ha : a = 0 <;> simp [ha, hb, mul_eq_zero]
      rw [this, hrec]

theorem attachMasks_length (groups : List ModuleGroup) (model : List Layer) :
    (attachMasks groups model).length = model.length := by
  simp [attachMasks]

theorem attachMasks_getD {groups : List ModuleGroup} {model : List Layer}
    {i : ℕ} (hi : i < model.length) :
    (attachMasks groups model).getD i default
      = (if groups.any (fun g => g.fqn == i) then
          { model.getD i default with
              mask := some (List.replicate (model.getD i default).weight.length 1) }
         else model.getD i default) := by
  unfold attachMasks
  rw [range_map_getD _ hi]

theorem stepWith_length (upd : List ℚ → List ℚ → ℚ → List ℚ)
    (model : List Layer) (groups : List ModuleGroup) :
    (stepWith upd model groups).length = model.length := by
  simp [stepWith]

theorem stepWith_getD {upd : List ℚ → List ℚ → ℚ → List ℚ}
    {model : List Layer} {groups : List ModuleGroup} {i : ℕ}
    (hi : i < model.length) :
    (stepWith upd model groups).getD i default
      = (match groups.find? (fun g => g.fqn == i) with
         | none => model.getD i default
         | some g =>
            match (model.getD i default).mask with
            | none => model.getD i default
            | some m =>
                { model.getD i default with
                    mask := some (upd (model.getD i default).weight m g.sparsity_level) }) := by
  unfold stepWith
  rw [range_map_getD _ hi]

theorem squash_mask_length (model : List Layer) :
    (squash_mask model).length = model.length := by
  simp [squash_mask]

theorem squash_mask_getD {model : List Layer} {i : ℕ} (hi : i < model.length) :
    (squash_mask model).getD i default
      = (match (model.getD i default).mask with
         | none => model.getD i default
         | some m =>
            { model.getD i default with
                weight := List.zipWith (· * ·) m (model.getD i default).weight,
                mask := none }) := by
  unfold squash_mask
  rw [List.getD_eq_getElem _ _ (by simpa using hi), List.getElem_map,
    List.getD_eq_getElem _ _ hi]

/-! ### Claim theorems -/

/-- C1 (counterexample): the squashed zero fraction does not equal the
configured sparsity level in general.  With a two-element weight `[1, 2]` and
default sparsity level `3/10`, preparing, stepping the
`ClosestToMeanSparsifier` and squashing zeroes `int(round(0.3 * 2)) = 1` of
the 2 entries, a fraction of `1/2 ≠ 3/10`. -/
theorem claim_C1_counterexample :
    zeroFraction ((squash_mask (stepWith ClosestToMeanSparsifier.update_mask
        (prepare ⟨3/10, (1, 4), 4⟩ [⟨[1, 2], none, [], 2, 1⟩] none).1
        (prepare ⟨3/10, (1, 4), 4⟩ [⟨[1, 2], none, [], 2, 1⟩] none).2)).getD 0
          default).weight
      = 1/2 ∧ ¬ ((1/2 : ℚ) = 3/10) := by
  constructor
  · decide
  · norm_num

/-- C1 (amended): for a layer whose `n`-element original weight has no zero
entries and whose mask has the weight's shape, after a
`ClosestToMeanSparsifier` mask update at sparsity level `s ∈ [0, 1]` and a
squash, the number of zero weight entries is `int(round(s * n))`, so the zero
fraction is `int(round(s * n)) / n`; it equals `s` exactly exactly when
`s * n` is an integer. -/
theorem claim_C1_amended (weight mask : List ℚ) (sparsity_level : ℚ)
    (hz : ∀ x ∈ weight, x ≠ 0) (hm : mask.length = weight.length)
    (h0 : 0 ≤ sparsity_level) (h1 : sparsity_level ≤ 1) :
    zeroCount (List.zipWith (· * ·)
        (ClosestToMeanSparsifier.update_mask weight mask sparsity_level) weight)
      = (pyRound (sparsity_level * (weight.length : ℚ))).toNat ∧
    zeroFraction (List.zipWith (· * ·)
        (ClosestToMeanSparsifier.update_mask weight mask sparsity_level) weight)
      = ((pyRound (sparsity_level * (weight.length : ℚ))).toNat : ℚ)
          / (weight.length : ℚ) ∧
    (∀ k : ℕ, sparsity_level * (weight.length : ℚ) = (k : ℚ) → weight ≠ [] →
      zeroFraction (List.zipWith (· * ·)
          (ClosestToMeanSparsifier.update_mask weight mask sparsity_level) weight)
        = sparsity_level) := by
  have hlen : (ClosestToMeanSparsifier.update_mask weight mask sparsity_level).length
      = weight.length := by
    rw [update_mask_length, hm]
  have hcount : zeroCount (List.zipWith (· * ·)
      (ClosestToMeanSparsifier.update_mask weight mask sparsity_level) weight)
      = (pyRound (sparsity_level * (weight.length : ℚ))).toNat := by
    rw [zeroCount_zipWith_mul hlen hz, update_mask_zeroCount h0 h1 hm]
  have hzlen : (List.zipWith (· * ·)
      (ClosestToMeanSparsifier.update_mask weight mask sparsity_level)
      weight).length = weight.length := by
    rw [List.length_zipWith, hlen, min_self]
  have hfrac : zeroFraction (List.zipWith (· * ·)
      (ClosestToMeanSparsifier.update_mask weight mask sparsity_level) weight)
      = ((pyRound (sparsity_level * (weight.length : ℚ))).toNat : ℚ)
          / (weight.length : ℚ) := by
    unfold zeroFraction
    rw [hcount, hzlen]
  refine ⟨hcount, hfrac, ?_⟩
  intro k hk hne
  have hn : (0 : ℚ) < (weight.length : ℚ) := by
    have : 0 < weight.length := List.length_pos.mpr hne
    exact_mod_cast this
  have hround : pyRound (sparsity_level * (weight.length : ℚ)) = (k : ℤ) := by
    rw [hk]
    exact_mod_cast pyRound_intCast (k : ℤ)
  rw [hfrac, hround]
  have hsk : sparsity_level = (k : ℚ) / (weight.length : ℚ) := by
    field_simp
    linarith [hk]
  rw [hsk]
  norm_num

/-- C1 (amended, witness): a concrete instance — weight `[1, 2, 3, 4]`,
sparsity level `1/2`; `(1/2) * 4 = 2` is an integer and the squashed zero
fraction is exactly `1/2`. -/
theorem claim_C1_witness :
    zeroCount (List.zipWith (· * ·)
        (ClosestToMeanSparsifier.update_mask [1, 2, 3, 4] [1, 1, 1, 1] (1/2))
        [1, 2, 3, 4])
      = (pyRound ((1/2) * ((([1, 2, 3, 4] : List ℚ)).length : ℚ))).toNat ∧
    zeroFraction (List.zipWith (· * ·)
        (ClosestToMeanSparsifier.update_mask [1, 2, 3, 4] [1, 1, 1, 1] (1/2))
        [1, 2, 3, 4]) = 1/2 :=
  ⟨(claim_C1_amended [1, 2, 3, 4] [1, 1, 1, 1] (1/2) (by decide) (by decide)
      (by norm_num) (by norm_num)).1,
   (claim_C1_amended [1, 2, 3, 4] [1, 1, 1, 1] (1/2) (by decide) (by decide)
      (by norm_num) (by norm_num)).2.2 2 (by norm_num) (by decide)⟩

/-- C2 (counterexample): a linear layer not listed in an explicit sparsity
config is not given the default group — it is left untouched by `prepare` and
`step` and stays dense.  With defaults at sparsity level `4/5` and a config
listing only layer 0, layer 1 still has no parametrization after a step, its
weight's zero fraction is `0`, not the default `4/5`. -/
theorem claim_C2_counterexample :
    (stepWith ClosestToMeanSparsifier.update_mask
        (prepare ⟨4/5, (1, 4), 4⟩
          [⟨[1, 2, 3, 4], none, [], 4, 1⟩, ⟨[1, 2, 3, 4], none, [], 4, 1⟩]
          (some [ConfigEntry.custom 0 (7/10) (4, 1) 4])).1
        (prepare ⟨4/5, (1, 4), 4⟩
          [⟨[1, 2, 3, 4], none, [], 4, 1⟩, ⟨[1, 2, 3, 4], none, [], 4, 1⟩]
          (some [ConfigEntry.custom 0 (7/10) (4, 1) 4])).2).getD 1 default
      = ⟨[1, 2, 3, 4], none, [], 4, 1⟩ ∧
    zeroFraction ((stepWith ClosestToMeanSparsifier.update_mask
        (prepare ⟨4/5, (1, 4), 4⟩
          [⟨[1, 2, 3, 4], none, [], 4, 1⟩, ⟨[1, 2, 3, 4], none, [], 4, 1⟩]
          (some [ConfigEntry.custom 0 (7/10) (4, 1) 4])).1
        (prepare ⟨4/5, (1, 4), 4⟩
          [⟨[1, 2, 3, 4], none, [], 4, 1⟩, ⟨[1, 2, 3, 4], none, [], 4, 1⟩]
          (some [ConfigEntry.custom 0 (7/10) (4, 1) 4])).2).getD 1
            default).effWeight
      = 0 ∧ ¬ ((0 : ℚ) = 4/5) := by
  refine ⟨by decide, by decide, by norm_num⟩

/-- C2 (amended): a layer listed in the config without explicit parameters
receives a module group carrying the default parameters, while a layer whose
index appears in no config entry gets no group at all: it is unchanged by
`prepare` followed by a `step` (with any update rule), so it stays dense
rather than reaching the default sparsity level. -/
theorem claim_C2_amended (d : SparseDefaults) (model : List Layer)
    (cfg : List ConfigEntry) (upd : List ℚ → List ℚ → ℚ → List ℚ) (i j : ℕ)
    (hi : i < model.length) (hni : ∀ e ∈ cfg, ConfigEntry.fqn e ≠ i)
    (hj : ConfigEntry.bare j ∈ cfg) :
    (stepWith upd (prepare d model (some cfg)).1
        (prepare d model (some cfg)).2).getD i default
      = model.getD i default ∧
    (⟨j, d.sparsity_level, d.sparse_block_shape, d.zeros_per_block⟩ : ModuleGroup)
      ∈ (prepare d model (some cfg)).2 := by
  have hgroups : (prepare d model (some cfg)).2
      = cfg.map (fun e =>
          match e with
          | .custom i' s b z => (⟨i', s, b, z⟩ : ModuleGroup)
          | .bare i' => ⟨i', d.sparsity_level, d.sparse_block_shape, d.zeros_per_block⟩) := by
    simp [prepare, makeGroups]
  have hfqn : ∀ g ∈ (prepare d model (some cfg)).2, g.fqn ≠ i := by
    intro g hg
    rw [hgroups] at hg
    obtain ⟨e, he, rfl⟩ := List.mem_map.mp hg
    cases e with
    | custom i' s b z => exact hni _ he
    | bare i' => exact hni _ he
  have hany : (prepare d model (some cfg)).2.any (fun g => g.fqn == i) = false := by
    rw [List.any_eq_false]
    intro g hg
    simpa using hfqn g hg
  have hfind : (prepare d model (some cfg)).2.find? (fun g => g.fqn == i) = none := by
    rw [List.find?_eq_none]
    intro g hg
    simpa using hfqn g hg
  have hp1 : (prepare d model (some cfg)).1 = attachMasks (prepare d model (some cfg)).2 model := by
    simp [prepare]
  have hlen : i < (prepare d model (some cfg)).1.length := by
    rw [hp1, attachMasks_length]
    exact hi
  have hattach : (prepare d model (some cfg)).1.getD i default = model.getD i default := by
    rw [hp1, attachMasks_getD hi, if_neg (by simp [hany])]
  constructor
  · rw [stepWith_getD hlen, hfind, hattach]
  · rw [hgroups]
    exact List.mem_map.mpr ⟨ConfigEntry.bare j, hj, rfl⟩

/-- C2 (amended, witness): a concrete instance — the config is a single bare
reference to layer 0, layer 1 is unlisted; after `prepare` plus a
`ClosestToMeanSparsifier` step, layer 1 is unchanged and the bare entry's
group carries the default parameters. -/
theorem claim_C2_witness :
    (stepWith ClosestToMeanSparsifier.update_mask
        (prepare ⟨4/5, (1, 4), 4⟩
          [⟨[1, 2, 3, 4], none, [], 4, 1⟩, ⟨[5, 6, 7, 8], none, [], 4, 1⟩]
          (some [ConfigEntry.bare 0])).1
        (prepare ⟨4/5, (1, 4), 4⟩
          [⟨[1, 2, 3, 4], none, [], 4, 1⟩, ⟨[5, 6, 7, 8], none, [], 4, 1⟩]
          (some [ConfigEntry.bare 0])).2).getD 1 default
      = ([⟨[1, 2, 3, 4], none, [], 4, 1⟩,
          (⟨[5, 6, 7, 8], none, [], 4, 1⟩ : Layer)] : List Layer).getD 1 default ∧
    (⟨0, 4/5, (1, 4), 4⟩ : ModuleGroup)
      ∈ (prepare ⟨4/5, (1, 4), 4⟩
          [⟨[1, 2, 3, 4], none, [], 4, 1⟩, ⟨[5, 6, 7, 8], none, [], 4, 1⟩]
          (some [ConfigEntry.bare 0])).2 :=
  claim_C2_amended ⟨4/5, (1, 4), 4⟩
    [⟨[1, 2, 3, 4], none, [], 4, 1⟩, ⟨[5, 6, 7, 8], none, [], 4, 1⟩]
    [ConfigEntry.bare 0] ClosestToMeanSparsifier.update_mask 1 0
    (by norm_num) (by decide) (by decide)

/-- C3: `squash_mask` multiplies each layer's mask into the weight and
deletes the mask: after it, every layer has no `parametrizations` attribute,
a layer which had mask `m` has weight `m * weight` elementwise, and the bias
and dimensions are unchanged (a layer with no mask is untouched entirely). -/
theorem claim_C3 (model : List Layer) (i : ℕ) (hi : i < model.length) :
    ((squash_mask model).getD i default).mask = none ∧
    (∀ m, (model.getD i default).mask = some m →
      ((squash_mask model).getD i default).weight
        = List.zipWith (· * ·) m (model.getD i default).weight) ∧
    ((model.getD i default).mask = none →
      (squash_mask model).getD i default = model.getD i default) ∧
    ((squash_mask model).getD i default).bias = (model.getD i default).bias ∧
    ((squash_mask model).getD i default).in_features
      = (model.getD i default).in_features ∧
    ((squash_mask model).getD i default).out_features
      = (model.getD i default).out_features := by
  rw [squash_mask_getD hi]
  cases h : (model.getD i default).mask with
  | none =>
      refine ⟨h, ?_, fun _ => rfl, rfl, rfl, rfl⟩
      intro m hm
      simp at hm
  | some m =>
      refine ⟨rfl, ?_, by simp, rfl, rfl, rfl⟩
      intro m' hm'
      cases hm'
      rfl

/-- C3 (witness): a concrete layer with weight `[1, 2]` and mask `[0, 1]` —
after squashing, the weight is `[0, 2]`, the mask is gone, and the bias and
dimensions survive. -/
theorem claim_C3_witness :
    ((squash_mask [⟨[1, 2], some [0, 1], [5], 2, 1⟩]).getD 0 default).mask = none ∧
    ((squash_mask [⟨[1, 2], some [0, 1], [5], 2, 1⟩]).getD 0 default).weight
      = List.zipWith (· * ·) [0, 1]
          (([⟨[1, 2], some [0, 1], [5], 2, 1⟩] : List Layer).getD 0 default).weight ∧
    ((squash_mask [⟨[1, 2], some [0, 1], [5], 2, 1⟩]).getD 0 default).bias
      = (([⟨[1, 2], some [0, 1], [5], 2, 1⟩] : List Layer).getD 0 default).bias :=
  ⟨(claim_C3 [⟨[1, 2], some [0, 1], [5], 2, 1⟩] 0 (by norm_num)).1,
   (claim_C3 [⟨[1, 2], some [0, 1], [5], 2, 1⟩] 0 (by norm_num)).2.1 [0, 1] (by decide),
   (claim_C3 [⟨[1, 2], some [0, 1], [5], 2, 1⟩] 0 (by norm_num)).2.2.2.1⟩

/-- C4: immediately after `prepare` every targeted layer's mask is all-ones,
so the exposed weight equals the original weight, and when the original
weight has no zero entries the observed sparsity is zero until `step` is
called. -/
theorem claim_C4 (d : SparseDefaults) (model : List Layer)
    (config : Option (List ConfigEntry)) (i : ℕ) (hi : i < model.length)
    (hc : ((prepare d model config).2).any (fun g => g.fqn == i) = true) :
    ((prepare d model config).1.getD i default).mask
      = some (List.replicate (model.getD i default).weight.length 1) ∧
    ((prepare d model config).1.getD i default).effWeight
      = (model.getD i default).weight ∧
    ((∀ x ∈ (model.getD i default).weight, x ≠ 0) →
      zeroCount ((prepare d model config).1.getD i default).effWeight = 0) := by
  have hp1 : (prepare d model config).1
      = attachMasks (prepare d model config).2 model := by
    simp [prepare]
  have hmask : (prepare d model config).1.getD i default
      = { model.getD i default with
            mask := some (List.replicate (model.getD i default).weight.length 1) } := by
    rw [hp1, attachMasks_getD hi, if_pos hc]
  have heff : ((prepare d model config).1.getD i default).effWeight
      = (model.getD i default).weight := by
    rw [hmask]
    unfold Layer.effWeight
    simp only []
    exact zipWith_one_mul _
  refine ⟨by rw [hmask], heff, ?_⟩
  intro hz
  rw [heff]
  exact zeroCount_eq_zero_of_no_zero hz

/-- C4 (witness): a concrete one-layer model prepared with `config = None` —
the mask is `[1, 1]`, the exposed weight is the original `[1, 2]`, and the
observed zero count is `0`. -/
theorem claim_C4_witness :
    ((prepare ⟨4/5, (1, 4), 4⟩ [⟨[1, 2], none, [], 2, 1⟩] none).1.getD 0
        default).mask
      = some (List.replicate
          (([⟨[1, 2], none, [], 2, 1⟩] : List Layer).getD 0 default).weight.length 1) ∧
    ((prepare ⟨4/5, (1, 4), 4⟩ [⟨[1, 2], none, [], 2, 1⟩] none).1.getD 0
        default).effWeight
      = (([⟨[1, 2], none, [], 2, 1⟩] : List Layer).getD 0 default).weight ∧
    zeroCount ((prepare ⟨4/5, (1, 4), 4⟩ [⟨[1, 2], none, [], 2, 1⟩] none).1.getD 0
        default).effWeight = 0 :=
  ⟨(claim_C4 ⟨4/5, (1, 4), 4⟩ [⟨[1, 2], none, [], 2, 1⟩] none 0 (by norm_num)
      (by decide)).1,
   (claim_C4 ⟨4/5, (1, 4), 4⟩ [⟨[1, 2], none, [], 2, 1⟩] none 0 (by norm_num)
      (by decide)).2.1,
   (claim_C4 ⟨4/5, (1, 4), 4⟩ [⟨[1, 2], none, [], 2, 1⟩] none 0 (by norm_num)
      (by decide)).2.2 (by decide)⟩

/-- C5: `ClosestToMeanSparsifier.update_mask` always produces a mask of the
old mask's shape whose entries all lie in `{0, 1}`: a ones tensor with
selected entries set to 0, reshaped to the old mask's shape. -/
theorem claim_C5 (weight mask : List ℚ) (sparsity_level : ℚ) :
    (ClosestToMeanSparsifier.update_mask weight mask sparsity_level).length
      = mask.length ∧
    ∀ x ∈ ClosestToMeanSparsifier.update_mask weight mask sparsity_level,
      x = 0 ∨ x = 1 :=
  ⟨update_mask_length _ _ _, fun _ hx => update_mask_mem hx⟩

/-- C5 (witness): on weight `[1, 2]`, mask `[1, 1]` and level `1/2`, the new
mask has the old shape and its entry `0` lies in `{0, 1}`. -/
theorem claim_C5_witness :
    (ClosestToMeanSparsifier.update_mask [1, 2] [1, 1] (1/2)).length
      = ([(1 : ℚ), 1] : List ℚ).length ∧
    ((0 : ℚ) = 0 ∨ (0 : ℚ) = 1) :=
  ⟨(claim_C5 [1, 2] [1, 1] (1/2)).1,
   (claim_C5 [1, 2] [1, 1] (1/2)).2 0 (by decide)⟩

/-- Totality and value characterisation of `OnOffSchedulerSL.get_sl` under
the well-formedness precondition that `epoch_points` has at least three
entries. -/
theorem get_sl_spec (sch : OnOffSchedulerSL) (h : 3 ≤ sch.epoch_points.length) :
    ∃ l, sch.get_sl = some l ∧ l.length = sch.base_sl.length ∧
      ∀ i, i < l.length → l.getD i 0 = 0 ∨ l.getD i 0 = sch.base_sl.getD i 0 := by
  have hzeros : ∀ i, i < sch.base_sl.length →
      (List.replicate sch.base_sl.length (0 : ℚ)).getD i 0 = 0 := by
    intro i hi
    rw [List.getD_eq_getElem _ _ (by simpa using hi)]
    simp
  rcases hep : sch.epoch_points with _ | ⟨e0, tl0⟩
  · rw [hep] at h
    simp at h
  rcases hep0 : tl0 with _ | ⟨e1, tl1⟩
  · rw [hep, hep0] at h
    simp at h
  rcases hep1 : tl1 with _ | ⟨e2, tl2⟩
  · rw [hep, hep0, hep1] at h
    simp at h
  unfold OnOffSchedulerSL.get_sl
  rw [hep, hep0, hep1]
  simp only [List.get?_cons_zero, List.get?_cons_succ, Option.bind_eq_bind,
    Option.some_bind]
  split_ifs
  · exact ⟨_, rfl, by simp, fun i hi => Or.inl (hzeros i (by simpa using hi))⟩
  · exact ⟨_, rfl, rfl, fun i hi => Or.inr rfl⟩
  · exact ⟨_, rfl, by simp, fun i hi => Or.inl (hzeros i (by simpa using hi))⟩
  · exact ⟨_, rfl, rfl, fun i hi => Or.inr rfl⟩

/-- C6: every schedule function in the repository keeps the effective level
between `0` and the configured target: `stepping_lambda` is a scaling factor
in `[0, 1]` for every epoch, taking the values `0, 1/2, 3/4` at epochs
`0, 1, 2` and `1` from epoch `3` on, and `OnOffSchedulerSL.get_sl` returns a
per-group list each entry of which is `0` or the corresponding base target
level. -/
theorem claim_C6 :
    (∀ epoch : ℕ, 0 ≤ stepping_lambda epoch ∧ stepping_lambda epoch ≤ 1) ∧
    (stepping_lambda 0 = 0 ∧ stepping_lambda 1 = 1/2 ∧ stepping_lambda 2 = 3/4) ∧
    (∀ epoch : ℕ, 3 ≤ epoch → stepping_lambda epoch = 1) ∧
    (∀ sch : OnOffSchedulerSL, 3 ≤ sch.epoch_points.length →
      ∃ l, sch.get_sl = some l ∧ l.length = sch.base_sl.length ∧
        ∀ i, i < l.length → l.getD i 0 = 0 ∨ l.getD i 0 = sch.base_sl.getD i 0) := by
  have hval : ∀ epoch : ℕ, 3 ≤ epoch → stepping_lambda epoch = 1 := by
    intro epoch h3
    match epoch, h3 with
    | 3, _ => decide
    | (n + 4), _ =>
        unfold stepping_lambda
        rw [if_pos (by simp)]
  refine ⟨?_, ⟨by decide, by decide, by decide⟩, hval, fun sch h => get_sl_spec sch h⟩
  intro epoch
  match epoch with
  | 0 => constructor <;> norm_num [stepping_lambda]
  | 1 => constructor <;> norm_num [stepping_lambda]
  | 2 => constructor <;> norm_num [stepping_lambda]
  | (n + 3) =>
      rw [hval (n + 3) (by omega)]
      norm_num

/-- C6 (witness): `stepping_lambda` at concrete epochs `5` and `7`, and
`get_sl` on the notebook's scheduler `epoch_points = [3, 6, 9]` with base
level `4/5` at `last_epoch = 4`. -/
theorem claim_C6_witness :
    (0 ≤ stepping_lambda 5 ∧ stepping_lambda 5 ≤ 1) ∧
    stepping_lambda 7 = 1 ∧
    (∃ l, OnOffSchedulerSL.get_sl ⟨[3, 6, 9], [4/5], 4⟩ = some l ∧
      l.length = ([(4 : ℚ)/5] : List ℚ).length ∧
      ∀ i, i < l.length →
        l.getD i 0 = 0 ∨ l.getD i 0 = ([(4 : ℚ)/5] : List ℚ).getD i 0) :=
  ⟨claim_C6.1 5, claim_C6.2.2.1 7 (by norm_num),
   claim_C6.2.2.2 ⟨[3, 6, 9], [4/5], 4⟩ (by norm_num)⟩

/-- C7: `prepare` attaches a weight parametrization (all-ones mask) to every
layer targeted by the config while leaving the model's structure — layer
count, weights, biases and dimensions — otherwise unchanged; untargeted
layers are untouched entirely.  (In the notebooks the same model object is
mutated; here the mutation is the returned state.) -/
theorem claim_C7 (d : SparseDefaults) (model : List Layer)
    (config : Option (List ConfigEntry)) :
    (prepare d model config).1.length = model.length ∧
    ∀ i, i < model.length →
      ((prepare d model config).1.getD i default).weight
        = (model.getD i default).weight ∧
      ((prepare d model config).1.getD i default).bias
        = (model.getD i default).bias ∧
      ((prepare d model config).1.getD i default).in_features
        = (model.getD i default).in_features ∧
      ((prepare d model config).1.getD i default).out_features
        = (model.getD i default).out_features ∧
      (((prepare d model config).2).any (fun g => g.fqn == i) = true →
        ((prepare d model config).1.getD i default).mask
          = some (List.replicate (model.getD i default).weight.length 1)) ∧
      (((prepare d model config).2).any (fun g => g.fqn == i) = false →
        (prepare d model config).1.getD i default = model.getD i default) := by
  have hp1 : (prepare d model config).1
      = attachMasks (prepare d model config).2 model := by
    simp [prepare]
  refine ⟨by rw [hp1, attachMasks_length], ?_⟩
  intro i hi
  rw [hp1, attachMasks_getD hi]
  by_cases hc : ((prepare d model config).2).any (fun g => g.fqn == i) = true
  · rw [if_pos hc]
    exact ⟨rfl, rfl, rfl, rfl, fun _ => rfl, fun hfalse => by rw [hc] at hfalse; cases hfalse⟩
  · rw [if_neg hc]
    exact ⟨rfl, rfl, rfl, rfl, fun htrue => absurd htrue hc, fun _ => rfl⟩

/-- C7 (witness): a concrete two-layer model with only layer 0 configured —
lengths and fields are preserved, layer 0 gets the all-ones mask, layer 1 is
untouched. -/
theorem claim_C7_witness :
    (prepare ⟨4/5, (1, 4), 4⟩
        [⟨[1, 2], none, [], 2, 1⟩, ⟨[3, 4], none, [], 2, 1⟩]
        (some [ConfigEntry.bare 0])).1.length
      = ([⟨[1, 2], none, [], 2, 1⟩, (⟨[3, 4], none, [], 2, 1⟩ : Layer)] : List Layer).length ∧
    ((prepare ⟨4/5, (1, 4), 4⟩
        [⟨[1, 2], none, [], 2, 1⟩, ⟨[3, 4], none, [], 2, 1⟩]
        (some [ConfigEntry.bare 0])).1.getD 0 default).weight
      = (([⟨[1, 2], none, [], 2, 1⟩, (⟨[3, 4], none, [], 2, 1⟩ : Layer)] : List Layer).getD
          0 default).weight :=
  ⟨(claim_C7 ⟨4/5, (1, 4), 4⟩
      [⟨[1, 2], none, [], 2, 1⟩, ⟨[3, 4], none, [], 2, 1⟩]
      (some [ConfigEntry.bare 0])).1,
   ((claim_C7 ⟨4/5, (1, 4), 4⟩
      [⟨[1, 2], none, [], 2, 1⟩, ⟨[3, 4], none, [], 2, 1⟩]
      (some [ConfigEntry.bare 0])).2 0 (by norm_num)).1⟩

/-- C8: for an `n`-element weight and sparsity level `s ∈ [0, 1]`,
`ClosestToMeanSparsifier.update_mask` zeroes exactly `int(round(s * n))`
mask positions, every mask entry is `0` or `1`, and every zeroed position's
weight is at least as close to the weight's mean as every position left at
`1` (the elements closest to the mean are removed). -/
theorem claim_C8 (weight mask : List ℚ) (sparsity_level : ℚ)
    (h0 : 0 ≤ sparsity_level) (h1 : sparsity_level ≤ 1)
    (hm : mask.length = weight.length) :
    zeroCount (ClosestToMeanSparsifier.update_mask weight mask sparsity_level)
      = (pyRound (sparsity_level * (weight.length : ℚ))).toNat ∧
    (∀ i, i < weight.length →
      ((ClosestToMeanSparsifier.update_mask weight mask sparsity_level).getD i 1 = 0 ∨
       (ClosestToMeanSparsifier.update_mask weight mask sparsity_level).getD i 1 = 1)) ∧
    (∀ i j, i < weight.length → j < weight.length →
      (ClosestToMeanSparsifier.update_mask weight mask sparsity_level).getD i 1 = 0 →
      (ClosestToMeanSparsifier.update_mask weight mask sparsity_level).getD j 1 = 1 →
      |weight.getD i 0 - tensorMean weight| ≤ |weight.getD j 0 - tensorMean weight|) := by
  refine ⟨update_mask_zeroCount h0 h1 hm, ?_, ?_⟩
  · intro i hiw
    rw [update_mask_getD (hm ▸ hiw)]
    split_ifs <;> simp
  · intro i j hiw hjw hzi hoj
    rw [update_mask_getD (hm ▸ hiw)] at hzi
    rw [update_mask_getD (hm ▸ hjw)] at hoj
    have hi : i ∈ zeroedIdx weight sparsity_level := by
      by_contra hni
      rw [if_neg hni] at hzi
      norm_num at hzi
    have hj : j ∉ zeroedIdx weight sparsity_level := by
      intro hjmem
      rw [if_pos hjmem] at hoj
      norm_num at hoj
    exact zeroedIdx_min_dist hi hjw hj

/-- C8 (witness): weight `[1, 2, 3, 4]` at level `7/10` — exactly
`int(round(0.7 * 4)) = 3` positions are zeroed, and zeroed position `1`
(value `2`) is at least as close to the mean `5/2` as kept position `3`
(value `4`). -/
theorem claim_C8_witness :
    zeroCount (ClosestToMeanSparsifier.update_mask [1, 2, 3, 4] [1, 1, 1, 1] (7/10))
      = (pyRound ((7/10) * ((([1, 2, 3, 4] : List ℚ)).length : ℚ))).toNat ∧
    |([1, 2, 3, 4] : List ℚ).getD 1 0 - tensorMean [1, 2, 3, 4]|
      ≤ |([1, 2, 3, 4] : List ℚ).getD 3 0 - tensorMean [1, 2, 3, 4]| :=
  ⟨(claim_C8 [1, 2, 3, 4] [1, 1, 1, 1] (7/10) (by norm_num) (by norm_num)
      (by decide)).1,
   (claim_C8 [1, 2, 3, 4] [1, 1, 1, 1] (7/10) (by norm_num) (by norm_num)
      (by decide)).2.2 1 3 (by norm_num) (by norm_num) (by decide) (by decide)⟩

/-- C9: `ClosestToMeanSparsifier.update_mask` is idempotent — it recomputes
the mask from the original (unmasked) weight, reading the old mask only
through its shape, so a second call with the same sparsity level and
unchanged original weight reproduces the first call's mask. -/
theorem claim_C9 (weight mask : List ℚ) (sparsity_level : ℚ) :
    ClosestToMeanSparsifier.update_mask weight
        (ClosestToMeanSparsifier.update_mask weight mask sparsity_level)
        sparsity_level
      = ClosestToMeanSparsifier.update_mask weight mask sparsity_level :=
  update_mask_idem weight mask sparsity_level

/-- C10: under the precondition that `epoch_points` has at least three
entries, every index access in `OnOffSchedulerSL.get_sl` is in range, the
comparison branches are exhaustive, and the function is total, returning a
list of the same length as `base_sl`. -/
theorem claim_C10 (sch : OnOffSchedulerSL) (h : 3 ≤ sch.epoch_points.length) :
    ∃ l, sch.get_sl = some l ∧ l.length = sch.base_sl.length := by
  obtain ⟨l, hl, hlen, _⟩ := get_sl_spec sch h
  exact ⟨l, hl, hlen⟩

/-- C10 (witness): the notebook's scheduler `epoch_points = [3, 6, 9]` with
one base level at `last_epoch = 0` returns a list of length 1. -/
theorem claim_C10_witness :
    ∃ l, OnOffSchedulerSL.get_sl ⟨[3, 6, 9], [4/5], 0⟩ = some l ∧
      l.length = ([(4 : ℚ)/5] : List ℚ).length :=
  claim_C10 ⟨[3, 6, 9], [4/5], 0⟩ (by norm_num)
